import Mathlib

/-!
Shallow embedding of `egui_memory_editor` (`src/lib.rs`), a hex/memory
inspector widget.  Addresses are `Nat` (Rust `usize`; the crate documents a
`2^24` practical bound, so no overflow modelling is needed).  The modules
`option_data.rs` and `list_clipper.rs` belong to this repository but are not
part of the inspected sources; the few pieces of them that the claims need
(the options bundle, the between-frame width carry, and the scroll clipper's
row window) are modelled from the spec, and each such definition says so in
its doc comment.  GUI side effects (labels, colours, grids) are irrelevant to
the claims; what is embedded is the observable data flow: which rows are laid
out, which addresses the caller-supplied read accessor is invoked with and how
often, how the address labels are sized, and which contract violations abort
the render call.
-/

namespace MemoryEditorSpec

/-- Rust `Range<usize>` as stored in `address_ranges`: the half-open interval
`[start, stop)`.  The field `stop` stands for Rust's `end` (a Lean keyword). -/
structure AddressRange where
  start : Nat
  stop : Nat
deriving DecidableEq, Repr

/-- Rust `Range::contains(&a)`: `start <= a && a < end`. -/
def AddressRange.contains (r : AddressRange) (a : Nat) : Prop :=
  r.start ≤ a ∧ a < r.stop

instance (r : AddressRange) (a : Nat) : Decidable (r.contains a) :=
  inferInstanceAs (Decidable (_ ∧ _))

/-- Rust `Range::len()` (via `ExactSizeIterator`): `end - start`, and `0` when
`end < start` — exactly `Nat` subtraction. -/
def AddressRange.len (r : AddressRange) : Nat :=
  r.stop - r.start

/-- `num::Integer::div_ceil` on `usize`: ceiling division, computed from the
floor quotient and remainder.  Rust panics on a zero divisor; every call site
in the embedding either uses the constant divisor `8` or is guarded by the
explicit zero-column-count abort in `draw_viewer_contents`. -/
def div_ceil (a b : Nat) : Nat :=
  if a % b = 0 then a / b else a / b + 1

/-- Number of characters of `format!("{:X}", n)`: the positional base-16 digit
count of `n`, which is `1` for `n = 0` (Rust prints `"0"`). -/
def hex_digit_count (n : Nat) : Nat :=
  if _h : n < 16 then 1 else hex_digit_count (n / 16) + 1
termination_by n
decreasing_by exact Nat.div_lt_self (by omega) (by omega)

/-- Modelled from the spec: "`address_digit_width = ceil(log16(range.end))`".
This is the spec's formula, embedded only to compare against the digit width
the source actually computes (`address_characters` below): the least `k` with
`n ≤ 16 ^ k`, by the usual ceiling-log recursion. -/
def ceil_log16 (n : Nat) : Nat :=
  if _h : n ≤ 1 then 0 else ceil_log16 ((n + 15) / 16) + 1
termination_by n
decreasing_by omega

/-- Modelled from the spec: the options bundle `MemoryEditorOptions` lives in
`option_data.rs`, which is not among the inspected sources.  The fields are
the ones `lib.rs` destructures and the claims mention; the display-only colour
and text-style fields (`zero_colour`, `address_text_colour`, the three
`TextStyle` choices, `data_preview_options`) carry no claim-relevant data and
are omitted.  Spec: "column_count: positive integer ≤ 64, flags, colors,
text-style identifiers, data-preview sub-options", "selected range key",
"read-only/combo visibility flags". -/
structure MemoryEditorOptions where
  is_open : Bool
  combo_box_enabled : Bool
  selected_address_range : String
  column_count : Nat
  show_ascii_sidebar : Bool
  show_zero_colour : Bool
deriving DecidableEq, Repr

/-- Modelled from the spec: default options (`Default::default()` in
`option_data.rs`, not among the inspected sources).  Spec constraints: the
column count is "positive integer ≤ 64"; no claim depends on the exact
default values, and every concrete counterexample below installs explicit
options instead of relying on these. -/
def default_options : MemoryEditorOptions :=
  { is_open := true
    combo_box_enabled := false
    selected_address_range := ""
    column_count := 16
    show_ascii_sidebar := true
    show_zero_colour := true }

/-- Modelled from the spec: `BetweenFrameUiData` (`option_data.rs`, not among
the inspected sources).  Spec: "FrameCarryState: single scalar,
`previous_rendered_width: float` ... No other persisted fields."  Widths are
modelled as `ℚ`: the only operations performed on them are `max` and
assignment, which are exact. -/
structure BetweenFrameUiData where
  previous_frame_editor_width : ℚ
deriving DecidableEq, Repr

/-- Rust's `Ord` for `String` (the `BTreeMap` key order): lexicographic
comparison, as an executable function on the underlying character codes. -/
def chars_lt : List Char → List Char → Bool
  | [], [] => false
  | [], _ :: _ => true
  | _ :: _, [] => false
  | c :: s, d :: t =>
    if c.toNat < d.toNat then true
    else if d.toNat < c.toNat then false
    else chars_lt s t

/-- Lexicographic order on strings; see `chars_lt`. -/
def string_lt (a b : String) : Bool :=
  chars_lt a.data b.data

/-- Insertion into `BTreeMap<String, Range<usize>>`, modelled as an
association list kept sorted by key: `insert` replaces the value of an equal
key and otherwise places the new key at its ordered position. -/
def bt_insert : List (String × AddressRange) → String → AddressRange →
    List (String × AddressRange)
  | [], key, v => [(key, v)]
  | (k, w) :: t, key, v =>
    if string_lt key k then (key, v) :: (k, w) :: t
    else if key = k then (key, v) :: t
    else (k, w) :: bt_insert t key v

/-- `BTreeMap::get`, on the sorted association list (linear search; the map is
sorted, so this returns the unique binding of the key if present). -/
def bt_get : List (String × AddressRange) → String → Option AddressRange
  | [], _ => none
  | (k, v) :: t, key => if key = k then some v else bt_get t key

/-- The `MemoryEditor<T>` struct.  The caller-supplied accessor functions are
opaque function values whose only claim-relevant observable is the sequence of
addresses they are invoked with (computed symbolically below), so the struct
records only whether a write function has been set (`Option::is_some`). -/
structure MemoryEditor where
  window_name : String
  write_function_set : Bool
  address_ranges : List (String × AddressRange)
  read_only : Bool
  options : MemoryEditorOptions
  frame_data : BetweenFrameUiData
deriving DecidableEq, Repr

namespace MemoryEditor

/-- `MemoryEditor::new(read_function)`: the read accessor itself is opaque and
not stored (see `MemoryEditor`); everything else is as in the source. -/
def new : MemoryEditor :=
  { window_name := "Memory Editor"
    write_function_set := false
    address_ranges := []
    read_only := false
    options := default_options
    frame_data := { previous_frame_editor_width := 0 } }

/-- `with_window_title`. -/
def with_window_title (ed : MemoryEditor) (title : String) : MemoryEditor :=
  { ed with window_name := title }

/-- `with_write_function`: `self.write_function = Some(write_function)`. -/
def with_write_function (ed : MemoryEditor) : MemoryEditor :=
  { ed with write_function_set := true }

/-- `with_address_range`: inserts into the `BTreeMap`, recomputes
`combo_box_enabled = len > 1`, and then sets `selected_address_range` to
`self.address_ranges.iter().next()` — the FIRST KEY IN KEY ORDER of the
`BTreeMap`, i.e. the head of the sorted association list. -/
def with_address_range (ed : MemoryEditor) (range_name : String)
    (address_range : AddressRange) : MemoryEditor :=
  let ranges := bt_insert ed.address_ranges range_name address_range
  let opts := { ed.options with combo_box_enabled := ranges.length > 1 }
  let opts :=
    match ranges.head? with
    | some (name, _) => { opts with selected_address_range := name }
    | none => opts
  { ed with address_ranges := ranges, options := opts }

/-- `with_read_only`. -/
def with_read_only (ed : MemoryEditor) (ro : Bool) : MemoryEditor :=
  { ed with read_only := ro }

/-- `with_options`: installs the supplied bundle wholesale, with no
validation. -/
def with_options (ed : MemoryEditor) (opts : MemoryEditorOptions) :
    MemoryEditor :=
  { ed with options := opts }

end MemoryEditor

/-- Start address of a display row (`lib.rs` line 134):
`address_space.start + start_row * column_count`. -/
def row_start_address (range : AddressRange) (column_count row : Nat) : Nat :=
  range.start + row * column_count

/-- The per-cell loop of one grid chunk (`lib.rs` lines 141-157, and
identically lines 168-177 for the ASCII sidebar): cells at consecutive
addresses starting at `a`, at most `n` of them, and `break` — stop the whole
chunk — at the first address with `!address_space.contains(&memory_address)`.
Returns the addresses of the cells actually rendered (each of which is also
exactly one `read_function` invocation). -/
def scan_cells (range : AddressRange) (a : Nat) : Nat → List Nat
  | 0 => []
  | n + 1 => if range.contains a then a :: scan_cells range (a + 1) n else []

/-- The hex-value cells of one display row (`lib.rs` lines 138-159): chunks
`grid_column` in `0..column_count.div_ceil(&8)`, each chunk holding
`(column_count - 8*grid_column).min(8)` columns starting at
`start_address + 8*grid_column`. -/
def row_hex_cells (range : AddressRange) (column_count row : Nat) : List Nat :=
  (List.range (div_ceil column_count 8)).flatMap fun grid_column =>
    scan_cells range (row_start_address range column_count row + 8 * grid_column)
      (min (column_count - 8 * grid_column) 8)

/-- The ASCII-sidebar cells of one display row (`lib.rs` lines 167-177):
`column_count` columns from the row's start address, with the same
`contains`/`break` guard; each cell is one further `read_function`
invocation. -/
def row_ascii_cells (range : AddressRange) (column_count row : Nat) : List Nat :=
  scan_cells range (row_start_address range column_count row) column_count

/-- All `read_function` invocation addresses of one display row, in order:
the hex grid, then — only when `show_ascii_sidebar` — the ASCII sidebar. -/
def row_reads (range : AddressRange) (column_count : Nat) (ascii : Bool)
    (row : Nat) : List Nat :=
  row_hex_cells range column_count row ++
    if ascii then row_ascii_cells range column_count row else []

/-- `lib.rs` line 123: `max_lines = address_space.len().div_ceil(column_count)`,
the total number of display rows. -/
def max_lines (range : AddressRange) (column_count : Nat) : Nat :=
  div_ceil range.len column_count

/-- `lib.rs` line 121: `address_characters = format!("{:X}",
address_space.end).chars().count()` — the hex digit count of the range's END
bound, used as the zero-pad width of every address label. -/
def address_characters (range : AddressRange) : Nat :=
  hex_digit_count range.stop

/-- Digit count (after `0x`) of the rendered address label of one row,
`format!("0x{:01$X}", start_address, address_characters)` (`lib.rs` line
135): zero-padding to a minimum width never truncates, so the label has
`max address_characters (hex digits of start_address)` digits. -/
def row_label_digits (range : AddressRange) (column_count row : Nat) : Nat :=
  max (address_characters range) (hex_digit_count (row_start_address range column_count row))

/-- Modelled from the spec: the visible row window produced by
`list_clipper::ClippedScrollArea` (`list_clipper.rs`, not among the inspected
sources).  Spec 4.1: the clipper "must clamp the returned range to
`[0, total_rows)`" and "must tolerate `total_rows == 0`"; the window is
otherwise arbitrary (it depends on scroll offset and viewport height), so it
is taken as a parameter `[lo, hi)` and clamped here. -/
def clipped_line_range (total_rows lo hi : Nat) : List Nat :=
  List.range' (min lo total_rows) (min hi total_rows - min lo total_rows)

/-- All `read_function` invocation addresses of one render pass whose clipper
window is `[lo, hi)` (`lib.rs` lines 133-183: `for start_row in line_range`). -/
def frame_reads (range : AddressRange) (column_count : Nat) (ascii : Bool)
    (lo hi : Nat) : List Nat :=
  (clipped_line_range (max_lines range column_count) lo hi).flatMap
    (row_reads range column_count ascii)

/-- The ways a render call aborts (Rust panics): the two `assert!`s at
`lib.rs` lines 88-89, the `.unwrap()` on the selected-range lookup at line
119, and the division by zero in `len().div_ceil(column_count)` at line 123
when the column count is zero. -/
inductive RenderAbort where
  | emptyRegistry
  | missingWriteFunction
  | unresolvedSelection
  | divisionByZero
deriving DecidableEq, Repr

deriving instance DecidableEq for Except

/-- Effect of `draw_options_area` (`lib.rs` lines 224-227) on the column
count: `let mut columns = *column_count as u8; ...; *column_count = columns as
usize` — a round trip through `u8`, i.e. reduction mod 256.  The intervening
`DragValue` control belongs to the external GUI toolkit and only changes the
value on user interaction, which a pure render pass does not have. -/
def options_area_column_count (column_count : Nat) : Nat :=
  column_count % 256

/-- `draw_viewer_contents` (`lib.rs` lines 87-189), as the observable outcome
of one render pass: either an abort (`assert!`/`unwrap`/division panic, in
source order) or the ordered list of addresses passed to `read_function`.
`lo`/`hi` parameterize the clipper's visible row window (see
`clipped_line_range`). -/
def draw_viewer_contents (ed : MemoryEditor) (lo hi : Nat) :
    Except RenderAbort (List Nat) :=
  if ed.address_ranges.length > 0 then
    if ed.write_function_set ∨ ed.read_only then
      let column_count := options_area_column_count ed.options.column_count
      match bt_get ed.address_ranges ed.options.selected_address_range with
      | none => .error .unresolvedSelection
      | some address_space =>
        if column_count = 0 then .error .divisionByZero
        else
          .ok (frame_reads address_space column_count
            ed.options.show_ascii_sidebar lo hi)
    else .error .missingWriteFunction
  else .error .emptyRegistry

/-- Does the selected range key resolve in the registry (`lib.rs` line 119
succeeds)? -/
def selection_resolves (ed : MemoryEditor) : Bool :=
  (bt_get ed.address_ranges ed.options.selected_address_range).isSome

/-- Width stabilization of one window-rendered frame.  From the source:
`shrink_window_ui` (`lib.rs` line 251) bounds the container at
`ui.min_rect().width().max(previous_frame_editor_width)` before the contents
are drawn, and line 187 records `ui.min_rect().width()` afterwards.  Modelled
from the spec for the part the external toolkit decides (what `min_rect` is
after drawing): per spec 4.5 the container renders at the width bound and
"at the end of every render, record the minimum bounding width actually
used".  Input: the carried width and this frame's natural content width;
output: (rendered container width, recorded carry for the next frame). -/
def window_frame (previous_width natural_width : ℚ) : ℚ × ℚ :=
  let bound := max natural_width previous_width
  (bound, bound)

/-! ### Arithmetic facts about `div_ceil` -/

theorem le_div_ceil_mul (a b : Nat) (hb : 0 < b) : a ≤ div_ceil a b * b := by
  have h1 := Nat.div_add_mod a b
  have h2 : a % b < b := Nat.mod_lt _ hb
  unfold div_ceil
  split
  · rw [Nat.mul_comm]
    omega
  · rw [Nat.succ_mul, Nat.mul_comm]
    omega

theorem div_ceil_le_of_le_mul (a b m : Nat) (hb : 0 < b) (h : a ≤ m * b) :
    div_ceil a b ≤ m := by
  have h1 := Nat.div_add_mod a b
  unfold div_ceil
  split
  · have : b * (a / b) = a := by omega
    have hba : b * (a / b) ≤ b * m := by rw [this, Nat.mul_comm m b] at *; omega
    exact Nat.le_of_mul_le_mul_left hba hb
  · by_contra hcon
    have hm : m ≤ a / b := by omega
    have : m * b ≤ a / b * b := Nat.mul_le_mul_right b hm
    rw [Nat.mul_comm (a / b) b] at this
    omega

theorem div_ceil_zero (b : Nat) : div_ceil 0 b = 0 := by
  simp [div_ceil]

theorem max_lines_pos_facts (L cc : Nat) (hcc : 0 < cc) (hL : 1 ≤ L) :
    1 ≤ div_ceil L cc ∧ (div_ceil L cc - 1) * cc < L ∧
      L - (div_ceil L cc - 1) * cc ≤ cc := by
  have h1 := le_div_ceil_mul L cc hcc
  set rc := div_ceil L cc with hrc
  have hpos : 1 ≤ rc := by
    rcases Nat.eq_zero_or_pos rc with h | h
    · rw [h] at h1; omega
    · exact h
  have hlast : (rc - 1) * cc < L := by
    by_contra hcon
    have : rc ≤ rc - 1 := hrc ▸ div_ceil_le_of_le_mul L cc (rc - 1) hcc (by omega)
    omega
  have hexp : rc * cc = (rc - 1) * cc + cc := by
    nth_rewrite 1 [show rc = (rc - 1) + 1 by omega]
    rw [Nat.succ_mul]
  exact ⟨hpos, hlast, by omega⟩

/-! ### The cell scan as a contiguous interval -/

theorem scan_cells_eq_range' (r : AddressRange) (a n : Nat) (h : r.start ≤ a) :
    scan_cells r a n = List.range' a (min n (r.stop - a)) := by
  induction n generalizing a with
  | zero => simp [scan_cells]
  | succ n ih =>
    by_cases hc : r.contains a
    · have hlt : a < r.stop := hc.2
      have hmin : min (n + 1) (r.stop - a) = min n (r.stop - (a + 1)) + 1 := by
        omega
      rw [scan_cells, if_pos hc, ih (a + 1) (by omega), hmin, List.range'_succ]
    · have hge : r.stop ≤ a := by
        rcases Nat.lt_or_ge a r.stop with h1 | h1
        · exact absurd ⟨h, h1⟩ hc
        · exact h1
      have hmin : min (n + 1) (r.stop - a) = 0 := by omega
      rw [scan_cells, if_neg hc, hmin]
      simp

theorem row_chunks_eq_range' (r : AddressRange) (cc row : Nat) :
    ∀ k : Nat, 8 * k ≤ cc + 7 →
      ((List.range k).flatMap fun grid_column =>
          scan_cells r (row_start_address r cc row + 8 * grid_column)
            (min (cc - 8 * grid_column) 8)) =
        List.range' (row_start_address r cc row)
          (min (min cc (8 * k))
            (r.stop - row_start_address r cc row)) := by
  intro k
  induction k with
  | zero => intro _; simp
  | succ k ih =>
    intro hk
    have h8k : 8 * k < cc := by omega
    set s0 := row_start_address r cc row with hs0
    have hstart : r.start ≤ s0 + 8 * k := by
      rw [hs0]; unfold row_start_address; omega
    rw [List.range_succ, List.flatMap_append, ih (by omega),
      List.flatMap_cons, List.flatMap_nil, List.append_nil,
      scan_cells_eq_range' r (s0 + 8 * k) _ hstart]
    by_cases hE : r.stop - s0 ≤ 8 * k
    · have h2 : min (min (cc - 8 * k) 8) (r.stop - (s0 + 8 * k)) = 0 := by
        omega
      rw [h2]
      simp only [List.range'_zero, List.append_nil]
      congr 1
      omega
    · have h1 : min (min cc (8 * k)) (r.stop - s0) = 8 * k := by omega
      rw [h1]
      have happ := List.range'_append s0 (8 * k)
        (min (min (cc - 8 * k) 8) (r.stop - (s0 + 8 * k))) 1
      simp only [Nat.one_mul] at happ
      rw [happ]
      congr 1
      omega

theorem row_hex_cells_eq_range' (r : AddressRange) (cc row : Nat)
    (hcc : 0 < cc) :
    row_hex_cells r cc row =
      List.range' (row_start_address r cc row)
        (min cc (r.stop - row_start_address r cc row)) := by
  have hb : 8 * div_ceil cc 8 ≤ cc + 7 := by
    unfold div_ceil
    split <;> omega
  have hcb : cc ≤ 8 * div_ceil cc 8 := by
    have := le_div_ceil_mul cc 8 (by omega)
    omega
  rw [row_hex_cells, row_chunks_eq_range' r cc row (div_ceil cc 8) hb]
  congr 1
  omega

theorem row_ascii_cells_eq_range' (r : AddressRange) (cc row : Nat) :
    row_ascii_cells r cc row =
      List.range' (row_start_address r cc row)
        (min cc (r.stop - row_start_address r cc row)) := by
  rw [row_ascii_cells, scan_cells_eq_range']
  unfold row_start_address
  omega

/-! ### Per-row cell bounds and counts -/

theorem mem_row_hex_cells (r : AddressRange) (cc row a : Nat) (hcc : 0 < cc) :
    a ∈ row_hex_cells r cc row ↔
      row_start_address r cc row ≤ a ∧
        a < row_start_address r cc row +
          min cc (r.stop - row_start_address r cc row) := by
  rw [row_hex_cells_eq_range' r cc row hcc, List.mem_range'_1]

theorem row_cells_in_range (r : AddressRange) (cc : Nat) (ascii : Bool)
    (row a : Nat) (hcc : 0 < cc) (ha : a ∈ row_reads r cc ascii row) :
    r.start ≤ a ∧ a < r.stop := by
  have hbase : r.start ≤ row_start_address r cc row := by
    unfold row_start_address; omega
  rw [row_reads] at ha
  rcases List.mem_append.mp ha with h | h
  · rw [mem_row_hex_cells r cc row a hcc] at h
    omega
  · rcases ascii with _ | _
    · simp at h
    · simp only [if_pos] at h
      rw [row_ascii_cells_eq_range', List.mem_range'_1] at h
      omega

theorem mem_row_reads_bounds (r : AddressRange) (cc : Nat) (ascii : Bool)
    (row a : Nat) (hcc : 0 < cc) (ha : a ∈ row_reads r cc ascii row) :
    row_start_address r cc row ≤ a ∧ a < row_start_address r cc row + cc := by
  rw [row_reads] at ha
  rcases List.mem_append.mp ha with h | h
  · rw [mem_row_hex_cells r cc row a hcc] at h
    omega
  · rcases ascii with _ | _
    · simp at h
    · simp only [if_pos] at h
      rw [row_ascii_cells_eq_range', List.mem_range'_1] at h
      omega

theorem count_row_reads (r : AddressRange) (cc : Nat) (ascii : Bool)
    (row a : Nat) (hcc : 0 < cc) (ha : a ∈ row_hex_cells r cc row) :
    (row_reads r cc ascii row).count a = if ascii then 2 else 1 := by
  have hone : (row_hex_cells r cc row).count a = 1 := by
    rw [row_hex_cells_eq_range' r cc row hcc]
    rw [row_hex_cells_eq_range' r cc row hcc] at ha
    exact List.count_eq_one_of_mem (List.nodup_range' _ _) ha
  rw [row_reads, List.count_append, hone]
  rcases ascii with _ | _
  · simp
  · simp only [if_pos]
    rw [row_ascii_cells_eq_range', ← row_hex_cells_eq_range' r cc row hcc,
      hone]

/-! ### Digit counts of hexadecimal formatting -/

theorem hex_digit_count_pos (n : Nat) : 1 ≤ hex_digit_count n := by
  unfold hex_digit_count
  split <;> omega

theorem hex_digit_count_mono : ∀ n m : Nat, m ≤ n →
    hex_digit_count m ≤ hex_digit_count n := by
  intro n
  induction n using Nat.strong_induction_on with
  | _ n ih =>
    intro m h
    unfold hex_digit_count
    split
    · split
      · exact Nat.le_refl 1
      · have := hex_digit_count_pos (n / 16)
        omega
    · rename_i hm
      split
      · rename_i hn; omega
      · rename_i hn
        have h1 : m / 16 ≤ n / 16 := Nat.div_le_div_right h
        have h2 : n / 16 < n := Nat.div_lt_self (by omega) (by omega)
        have := ih (n / 16) h2 (m / 16) h1
        omega

/-! ### Frame-level lemmas -/

theorem row_reads_disjoint (r : AddressRange) (cc : Nat) (ascii : Bool)
    (row row' a : Nat) (hcc : 0 < cc) (hne : row' ≠ row)
    (ha : a ∈ row_hex_cells r cc row) : a ∉ row_reads r cc ascii row' := by
  intro hmem
  have h1 := (mem_row_hex_cells r cc row a hcc).mp ha
  have h2 := mem_row_reads_bounds r cc ascii row' a hcc hmem
  unfold row_start_address at h1 h2
  rcases Nat.lt_or_ge row' row with h | h
  · have hmul : (row' + 1) * cc ≤ row * cc := Nat.mul_le_mul_right cc (by omega)
    rw [Nat.succ_mul] at hmul
    omega
  · have hlt : row < row' := by omega
    have hmul : (row + 1) * cc ≤ row' * cc := Nat.mul_le_mul_right cc (by omega)
    rw [Nat.succ_mul] at hmul
    omega

theorem count_flatMap_single (f : Nat → List Nat) (rows : List Nat)
    (row a : Nat) (hnd : rows.Nodup) (hrow : row ∈ rows)
    (hother : ∀ row' ∈ rows, row' ≠ row → a ∉ f row') :
    (rows.flatMap f).count a = (f row).count a := by
  induction rows with
  | nil => cases hrow
  | cons x xs ih =>
    rw [List.flatMap_cons, List.count_append]
    rcases List.mem_cons.mp hrow with rfl | hmem
    · have hz : (xs.flatMap f).count a = 0 := by
        rw [List.count_eq_zero]
        intro hmem2
        obtain ⟨row', hrow', ha'⟩ := List.mem_flatMap.mp hmem2
        have hne : row' ≠ row := by
          intro e
          exact (List.nodup_cons.mp hnd).1 (e ▸ hrow')
        exact hother row' (List.mem_cons_of_mem _ hrow') hne ha'
      rw [hz]
      omega
    · have hxne : x ≠ row := by
        intro e
        exact (List.nodup_cons.mp hnd).1 (e ▸ hmem)
      have hz : (f x).count a = 0 := by
        rw [List.count_eq_zero]
        exact hother x (List.mem_cons_self x xs) hxne
      rw [hz, ih (List.nodup_cons.mp hnd).2 hmem
        (fun row' h' => hother row' (List.mem_cons_of_mem _ h'))]
      omega

theorem count_frame_reads (r : AddressRange) (cc : Nat) (ascii : Bool)
    (lo hi row a : Nat) (hcc : 0 < cc)
    (hrow : row ∈ clipped_line_range (max_lines r cc) lo hi)
    (ha : a ∈ row_hex_cells r cc row) :
    (frame_reads r cc ascii lo hi).count a = if ascii then 2 else 1 := by
  have hnd : (clipped_line_range (max_lines r cc) lo hi).Nodup := by
    rw [clipped_line_range]
    exact List.nodup_range' _ _
  rw [frame_reads, count_flatMap_single _ _ row a hnd hrow
    (fun row' _ hne => row_reads_disjoint r cc ascii row row' a hcc hne ha)]
  exact count_row_reads r cc ascii row a hcc ha

theorem frame_reads_in_range (r : AddressRange) (cc : Nat) (ascii : Bool)
    (lo hi a : Nat) (hcc : 0 < cc)
    (ha : a ∈ frame_reads r cc ascii lo hi) :
    r.start ≤ a ∧ a < r.stop := by
  rw [frame_reads] at ha
  obtain ⟨row, _, ha'⟩ := List.mem_flatMap.mp ha
  exact row_cells_in_range r cc ascii row a hcc ha'

/-! ### Registry (`BTreeMap`) lemmas -/

theorem bt_insert_length_pos (l : List (String × AddressRange)) (k : String)
    (v : AddressRange) : 0 < (bt_insert l k v).length := by
  induction l with
  | nil => simp [bt_insert]
  | cons hd t ih =>
    rcases hd with ⟨k0, v0⟩
    unfold bt_insert
    split
    · simp
    · split
      · simp
      · simp

theorem bt_get_head (l : List (String × AddressRange)) (k0 : String)
    (v0 : AddressRange) (h : l.head? = some (k0, v0)) :
    bt_get l k0 = some v0 := by
  cases l with
  | nil => simp at h
  | cons hd t =>
    simp only [List.head?_cons, Option.some.injEq] at h
    subst h
    unfold bt_get
    simp

theorem with_address_range_selection_resolves (ed : MemoryEditor)
    (name : String) (range : AddressRange) :
    selection_resolves (ed.with_address_range name range) = true := by
  unfold MemoryEditor.with_address_range selection_resolves
  rcases hh : (bt_insert ed.address_ranges name range).head? with _ | ⟨k0, v0⟩
  · exfalso
    have hpos := bt_insert_length_pos ed.address_ranges name range
    cases hl : bt_insert ed.address_ranges name range with
    | nil => rw [hl] at hpos; simp at hpos
    | cons hd t => rw [hl] at hh; simp at hh
  · simp only [hh]
    rw [bt_get_head _ k0 v0 hh]
    rfl

/-! ### Row count as a ceiling -/

theorem max_lines_eq_ceil (r : AddressRange) (cc : Nat) (hcc : 0 < cc) :
    max_lines r cc = ⌈(r.len : ℚ) / (cc : ℚ)⌉₊ := by
  have hccq : (0 : ℚ) < (cc : ℚ) := by exact_mod_cast hcc
  apply Nat.le_antisymm
  · apply div_ceil_le_of_le_mul _ _ _ hcc
    have h := Nat.le_ceil ((r.len : ℚ) / (cc : ℚ))
    rw [div_le_iff₀ hccq] at h
    exact_mod_cast h
  · rw [Nat.ceil_le, div_le_iff₀ hccq]
    have h := le_div_ceil_mul r.len cc hcc
    unfold max_lines
    exact_mod_cast h

/-! ### Concrete editors used by counterexamples and witnesses -/

/-- One range `"a" = [0,16)`, explicit options selecting it with 8 columns and
the ASCII sidebar shown, read-only, no write function. -/
def sample_editor : MemoryEditor :=
  ((MemoryEditor.new.with_address_range "a" ⟨0, 16⟩).with_options
    { is_open := true
      combo_box_enabled := false
      selected_address_range := "a"
      column_count := 8
      show_ascii_sidebar := true
      show_zero_colour := false }).with_read_only true

/-- One range `"a" = [0,16)`, but options installed via `with_options` that
select the nonexistent key `"b"`; read-only, no write function. -/
def dangling_selection_editor : MemoryEditor :=
  ((MemoryEditor.new.with_address_range "a" ⟨0, 16⟩).with_options
    { is_open := true
      combo_box_enabled := false
      selected_address_range := "b"
      column_count := 8
      show_ascii_sidebar := true
      show_zero_colour := false }).with_read_only true

/-- An options bundle with a zero column count (and a resolvable selection). -/
def zero_column_options : MemoryEditorOptions :=
  { is_open := true
    combo_box_enabled := false
    selected_address_range := "RAM"
    column_count := 0
    show_ascii_sidebar := false
    show_zero_colour := false }

/-- Extraction lemma: a successful render call yields exactly the frame's read
addresses for the resolved range, under a positive effective column count. -/
theorem draw_ok_elim (ed : MemoryEditor) (lo hi : Nat) (range : AddressRange)
    (reads : List Nat)
    (hsel : bt_get ed.address_ranges ed.options.selected_address_range
      = some range)
    (hok : draw_viewer_contents ed lo hi = .ok reads) :
    0 < options_area_column_count ed.options.column_count ∧
      reads = frame_reads range (options_area_column_count ed.options.column_count)
        ed.options.show_ascii_sidebar lo hi := by
  simp only [draw_viewer_contents, hsel] at hok
  split at hok
  · split at hok
    · split at hok
      · simp at hok
      · refine ⟨by omega, ?_⟩
        exact (Except.ok.inj hok).symm
    · simp at hok
  · simp at hok

/-! ### Claim theorems -/

/-- C1: for every selected address range and `column_count` in `[1,64]`, the
number of display rows computed by `draw_viewer_contents` is
`ceil(L / column_count)` (stated as a `ℚ`-ceiling); when the range is
nonempty the last row renders exactly `L - (row_count - 1) * column_count`
hex cells; and every cell rendered in any row (hex grid or ASCII sidebar)
lies inside the selected range — a cell past the range's end makes the row
loop `break`, so it is skipped, not rendered as a zero byte. -/
theorem row_count_is_ceil_and_last_row_cells (range : AddressRange)
    (column_count : Nat) (ascii : Bool) (h1 : 1 ≤ column_count)
    (h64 : column_count ≤ 64) :
    max_lines range column_count
        = ⌈(range.len : ℚ) / (column_count : ℚ)⌉₊ ∧
      (1 ≤ range.len →
        (row_hex_cells range column_count
            (max_lines range column_count - 1)).length
          = range.len - (max_lines range column_count - 1) * column_count) ∧
      (∀ row a, a ∈ row_reads range column_count ascii row →
        range.contains a) := by
  refine ⟨max_lines_eq_ceil range column_count h1, ?_, ?_⟩
  · intro hL
    obtain ⟨hpos, hlast, hle⟩ :=
      max_lines_pos_facts range.len column_count h1 hL
    rw [row_hex_cells_eq_range' range column_count _ h1, List.length_range']
    unfold max_lines at *
    unfold row_start_address
    unfold AddressRange.len at *
    omega
  · intro row a ha
    exact row_cells_in_range range column_count ascii row a h1 ha

/-- Witness for C1 at the range `[2,15)` with 5 columns: 13 bytes give
`ceil(13/5) = 3` rows, the last row has `13 - 2*5 = 3` cells, and address 12
(a cell of the last row) lies inside the range. -/
theorem row_count_is_ceil_and_last_row_cells_witness :
    (1 : Nat) ≤ 5 ∧ (5 : Nat) ≤ 64 ∧ 1 ≤ (AddressRange.mk 2 15).len ∧
      (row_hex_cells ⟨2, 15⟩ 5 (max_lines ⟨2, 15⟩ 5 - 1)).length
        = (AddressRange.mk 2 15).len - (max_lines ⟨2, 15⟩ 5 - 1) * 5 ∧
      (AddressRange.mk 2 15).contains 12 := by
  refine ⟨by decide, by decide, by decide, ?_, ?_⟩
  · exact (row_count_is_ceil_and_last_row_cells ⟨2, 15⟩ 5 true (by decide)
      (by decide)).2.1 (by decide)
  · exact (row_count_is_ceil_and_last_row_cells ⟨2, 15⟩ 5 true (by decide)
      (by decide)).2.2 2 12 (by decide)

/-- C2 (code bug): `with_address_range` re-assigns the selection to
`address_ranges.iter().next()` — the lexicographically smallest `BTreeMap`
key — after every insertion, contradicting its own doc comment ("The first
range that is added will be displayed by default").  Adding `"b"` first and
then `"a"` leaves `"a"` selected, not the first-added `"b"`. -/
theorem selected_range_is_min_key_not_first_added :
    (MemoryEditor.new.with_address_range "b" ⟨0, 10⟩).options.selected_address_range = "b" ∧
      ((MemoryEditor.new.with_address_range "b" ⟨0, 10⟩).with_address_range "a" ⟨0, 5⟩).options.selected_address_range = "a" := by
  decide

/-- C3 counterexample: `with_options` installs the caller's bundle with no
validation, so it can select a key absent from a nonempty registry — the
claimed invariant is not preserved by every operation. -/
theorem with_options_can_break_selection :
    0 < dangling_selection_editor.address_ranges.length ∧
      selection_resolves dangling_selection_editor = false := by
  decide

/-- C3 amended: once a range is added the selection resolves, and
`with_address_range`, `with_read_only`, `with_window_title` and
`with_write_function` all preserve resolvability; but `with_options` installs
the options bundle unvalidated and can break it (see the counterexample), and
a render call with an unresolvable selection fails fast at the lookup's
`unwrap` rather than recovering. -/
theorem selection_invariant_amended :
    (∀ (ed : MemoryEditor) (name : String) (range : AddressRange),
      selection_resolves (ed.with_address_range name range) = true) ∧
    (∀ (ed : MemoryEditor) (ro : Bool),
      selection_resolves (ed.with_read_only ro) = selection_resolves ed) ∧
    (∀ (ed : MemoryEditor) (t : String),
      selection_resolves (ed.with_window_title t) = selection_resolves ed) ∧
    (∀ ed : MemoryEditor,
      selection_resolves ed.with_write_function = selection_resolves ed) ∧
    (∀ (ed : MemoryEditor) (lo hi : Nat),
      0 < ed.address_ranges.length →
      (ed.write_function_set ∨ ed.read_only) →
      selection_resolves ed = false →
      draw_viewer_contents ed lo hi = .error .unresolvedSelection) := by
  refine ⟨with_address_range_selection_resolves, fun ed ro => rfl,
    fun ed t => rfl, fun ed => rfl, ?_⟩
  intro ed lo hi hlen hw hsel
  have hnone : bt_get ed.address_ranges ed.options.selected_address_range
      = none := by
    unfold selection_resolves at hsel
    cases h : bt_get ed.address_ranges ed.options.selected_address_range
    · rfl
    · rw [h] at hsel
      simp at hsel
  simp only [draw_viewer_contents, hnone]
  rw [if_pos hlen, if_pos hw]

/-- Witness for the amended C3: adding `"RAM"` makes the selection resolve,
and the editor with the dangling `"b"` selection aborts the render at the
lookup. -/
theorem selection_invariant_amended_witness :
    selection_resolves (MemoryEditor.new.with_address_range "RAM" ⟨0, 16⟩)
        = true ∧
      0 < dangling_selection_editor.address_ranges.length ∧
      (dangling_selection_editor.write_function_set ∨
        dangling_selection_editor.read_only) ∧
      selection_resolves dangling_selection_editor = false ∧
      draw_viewer_contents dangling_selection_editor 0 1
        = .error .unresolvedSelection := by
  refine ⟨selection_invariant_amended.1 MemoryEditor.new "RAM" ⟨0, 16⟩,
    by decide, by decide, by decide, ?_⟩
  exact selection_invariant_amended.2.2.2.2 dangling_selection_editor 0 1
    (by decide) (by decide) (by decide)

/-- C4 counterexample: with the ASCII sidebar shown, one render call invokes
the read accessor TWICE per visible in-range cell — once in the hex grid and
once more in the sidebar (`lib.rs` lines 148 and 174) — so "exactly once per
visible, in-range cell ... including when the ASCII sidebar is shown" fails:
address 0 is read twice. -/
theorem ascii_sidebar_reads_twice :
    draw_viewer_contents sample_editor 0 1
        = .ok [0, 1, 2, 3, 4, 5, 6, 7, 0, 1, 2, 3, 4, 5, 6, 7] ∧
      ([0, 1, 2, 3, 4, 5, 6, 7, 0, 1, 2, 3, 4, 5, 6, 7] : List Nat).count 0
        = 2 := by
  decide

/-- C4 amended: in a single render call the read accessor is invoked exactly
once per visible in-range cell when the ASCII sidebar is hidden, and exactly
twice (hex grid plus sidebar) when it is shown; no byte value is carried
across frames (the only frame-carry state is the rendered width, see
`BetweenFrameUiData`). -/
theorem read_count_per_visible_cell (ed : MemoryEditor) (lo hi : Nat)
    (range : AddressRange) (reads : List Nat) (row a : Nat)
    (hsel : bt_get ed.address_ranges ed.options.selected_address_range
      = some range)
    (hok : draw_viewer_contents ed lo hi = .ok reads)
    (hrow : row ∈ clipped_line_range
      (max_lines range (options_area_column_count ed.options.column_count))
      lo hi)
    (ha : a ∈ row_hex_cells range
      (options_area_column_count ed.options.column_count) row) :
    reads.count a = if ed.options.show_ascii_sidebar then 2 else 1 := by
  obtain ⟨h0, hr⟩ := draw_ok_elim ed lo hi range reads hsel hok
  rw [hr]
  exact count_frame_reads range _ _ lo hi row a h0 hrow ha

/-- Witness for the amended C4 on `sample_editor` (sidebar shown): address 0
of row 0 is counted twice among the call's reads. -/
theorem read_count_per_visible_cell_witness :
    bt_get sample_editor.address_ranges
        sample_editor.options.selected_address_range
      = some ⟨0, 16⟩ ∧
    draw_viewer_contents sample_editor 0 1
      = .ok [0, 1, 2, 3, 4, 5, 6, 7, 0, 1, 2, 3, 4, 5, 6, 7] ∧
    0 ∈ clipped_line_range
      (max_lines ⟨0, 16⟩
        (options_area_column_count sample_editor.options.column_count)) 0 1 ∧
    0 ∈ row_hex_cells ⟨0, 16⟩
      (options_area_column_count sample_editor.options.column_count) 0 ∧
    ([0, 1, 2, 3, 4, 5, 6, 7, 0, 1, 2, 3, 4, 5, 6, 7] : List Nat).count 0
      = if sample_editor.options.show_ascii_sidebar then 2 else 1 := by
  refine ⟨by decide, by decide, by decide, by decide, ?_⟩
  exact read_count_per_visible_cell sample_editor 0 1 ⟨0, 16⟩
    [0, 1, 2, 3, 4, 5, 6, 7, 0, 1, 2, 3, 4, 5, 6, 7] 0 0
    (by decide) (by decide) (by decide) (by decide)

/-- C5: every read-accessor invocation of a render call uses an address `a`
with `selected_range.start <= a < selected_range.end` — the `contains` guard
runs before every read, in the hex grid and in the ASCII sidebar alike, so
the accessor is never invoked outside the selected range. -/
theorem reads_within_selected_range (ed : MemoryEditor) (lo hi : Nat)
    (range : AddressRange) (reads : List Nat)
    (hsel : bt_get ed.address_ranges ed.options.selected_address_range
      = some range)
    (hok : draw_viewer_contents ed lo hi = .ok reads) :
    ∀ a ∈ reads, range.start ≤ a ∧ a < range.stop := by
  intro a ha
  obtain ⟨h0, hr⟩ := draw_ok_elim ed lo hi range reads hsel hok
  rw [hr] at ha
  exact frame_reads_in_range range _ _ lo hi a h0 ha

/-- Witness for C5 on `sample_editor`: the read of address 5 is within
`[0,16)`. -/
theorem reads_within_selected_range_witness :
    bt_get sample_editor.address_ranges
        sample_editor.options.selected_address_range
      = some ⟨0, 16⟩ ∧
    draw_viewer_contents sample_editor 0 1
      = .ok [0, 1, 2, 3, 4, 5, 6, 7, 0, 1, 2, 3, 4, 5, 6, 7] ∧
    ((AddressRange.mk 0 16).start ≤ 5 ∧ 5 < (AddressRange.mk 0 16).stop) := by
  refine ⟨by decide, by decide, ?_⟩
  exact reads_within_selected_range sample_editor 0 1 ⟨0, 16⟩
    [0, 1, 2, 3, 4, 5, 6, 7, 0, 1, 2, 3, 4, 5, 6, 7]
    (by decide) (by decide) 5 (by decide)

/-- C6 counterexample: the source sizes address labels by the hex digit count
of `range.end` itself, not by `ceil(log16(range.end))`: for the range
`[0,16)` the labels are 2 hex digits wide (`"0x10"` has two digits), while
`ceil(log16 16) = 1` and the claim says 1 digit. -/
theorem address_width_formula_cex :
    address_characters ⟨0, 16⟩ = 2 ∧ ceil_log16 16 = 1 ∧
      row_label_digits ⟨0, 16⟩ 8 0 = 2 := by
  have h16 : hex_digit_count 16 = 2 := by
    simp [hex_digit_count]
  have h0 : hex_digit_count 0 = 1 := by
    simp [hex_digit_count]
  have hc : ceil_log16 16 = 1 := by
    simp [ceil_log16]
  refine ⟨?_, hc, ?_⟩
  · rw [address_characters]
    exact h16
  · rw [row_label_digits, address_characters, row_start_address]
    simp only [Nat.zero_add, Nat.zero_mul, h16, h0]
    omega

/-- C6 amended: every rendered address label of a region is zero-padded
uppercase hex of exactly `address_characters range` digits — the digit count
of `range.end` written in hex (which exceeds `ceil(log16(range.end))` exactly
when `range.end` is a power of 16) — and this width is identical for every
rendered row of the region. -/
theorem address_label_width_stable (range : AddressRange) (cc row : Nat)
    (hcc : 1 ≤ cc) (hrow : row < max_lines range cc) :
    row_label_digits range cc row = address_characters range := by
  have hL : 1 ≤ range.len := by
    by_contra h
    have hz : range.len = 0 := by omega
    rw [max_lines, hz, div_ceil_zero] at hrow
    omega
  obtain ⟨hpos, hlast, _⟩ := max_lines_pos_facts range.len cc hcc hL
  have hmul : row * cc ≤ (div_ceil range.len cc - 1) * cc := by
    apply Nat.mul_le_mul_right
    unfold max_lines at hrow
    omega
  have hlt : row_start_address range cc row < range.stop := by
    have hlen2 : range.len = range.stop - range.start := rfl
    unfold row_start_address
    omega
  have hmono := hex_digit_count_mono range.stop
    (row_start_address range cc row) (by omega)
  rw [row_label_digits, address_characters]
  omega

/-- Witness for the amended C6: for `[0,16)` with 8 columns, row 1 (label
`"0x08"`) has the same 2-digit width as row 0. -/
theorem address_label_width_stable_witness :
    (1 : Nat) ≤ 8 ∧ 1 < max_lines ⟨0, 16⟩ 8 ∧
      row_label_digits ⟨0, 16⟩ 8 1 = address_characters ⟨0, 16⟩ := by
  refine ⟨by decide, by decide, ?_⟩
  exact address_label_width_stable ⟨0, 16⟩ 8 1 (by decide) (by decide)

/-- C7 counterexample: the two entry assertions are not the only
programming-contract aborts of a render call — an editor that passes both
(nonempty registry, read-only) still aborts at the selected-range lookup's
`unwrap` when the selection does not resolve. -/
theorem render_abort_beyond_entry_asserts :
    0 < dangling_selection_editor.address_ranges.length ∧
      (dangling_selection_editor.write_function_set ∨
        dangling_selection_editor.read_only) ∧
      draw_viewer_contents dangling_selection_editor 0 1
        = .error .unresolvedSelection := by
  decide

/-- C7 amended: a render call aborts, in this order, when the registry is
empty, when no write function is set while not read-only, when the selected
range key does not resolve, and when the effective column count is zero;
these four are exactly the abort conditions, each characterized below. -/
theorem render_abort_characterization (ed : MemoryEditor) (lo hi : Nat) :
    (draw_viewer_contents ed lo hi = .error .emptyRegistry ↔
      ed.address_ranges.length = 0) ∧
    (draw_viewer_contents ed lo hi = .error .missingWriteFunction ↔
      0 < ed.address_ranges.length ∧ ed.write_function_set = false ∧
        ed.read_only = false) ∧
    (draw_viewer_contents ed lo hi = .error .unresolvedSelection ↔
      0 < ed.address_ranges.length ∧
        (ed.write_function_set ∨ ed.read_only) ∧
        bt_get ed.address_ranges ed.options.selected_address_range = none) ∧
    (draw_viewer_contents ed lo hi = .error .divisionByZero ↔
      0 < ed.address_ranges.length ∧
        (ed.write_function_set ∨ ed.read_only) ∧
        (bt_get ed.address_ranges
          ed.options.selected_address_range).isSome = true ∧
        options_area_column_count ed.options.column_count = 0) := by
  rcases hbt : bt_get ed.address_ranges ed.options.selected_address_range
    with _ | rg <;>
  by_cases hlen : ed.address_ranges.length > 0 <;>
  by_cases hw : ((ed.write_function_set : Prop) ∨ (ed.read_only : Prop)) <;>
  by_cases hcc : options_area_column_count ed.options.column_count = 0 <;>
  simp only [draw_viewer_contents, hbt, hlen, hw, hcc, if_true, if_false,
    if_pos, if_neg, not_false_iff, Option.isSome_none, Option.isSome_some] <;>
  simp_all [List.length_pos] <;>
  exact fun hwf => by rcases hw with h | h <;> simp_all

/-- C8 counterexample: an editor with `read_only = true` and no write
function set renders successfully (given a registered range and resolvable
selection) — the render-entry contract check does NOT fail in read-only
mode without a write accessor. -/
theorem read_only_without_write_renders :
    sample_editor.read_only = true ∧
      sample_editor.write_function_set = false ∧
      draw_viewer_contents sample_editor 0 1
        = .ok [0, 1, 2, 3, 4, 5, 6, 7, 0, 1, 2, 3, 4, 5, 6, 7] := by
  decide

/-- C8 amended: construction never fails (`new` and the builder calls are
total and perform no contract checks); it is with `read_only` left at its
default `false` and no write function set that a subsequent render call
fails the render-entry write-accessor contract check (once past the
empty-registry check). -/
theorem missing_write_function_render_abort (ed : MemoryEditor) (lo hi : Nat)
    (hro : ed.read_only = false) (hw : ed.write_function_set = false)
    (hlen : 0 < ed.address_ranges.length) :
    draw_viewer_contents ed lo hi = .error .missingWriteFunction := by
  unfold draw_viewer_contents
  rw [if_pos hlen, if_neg (by simp [hro, hw])]

/-- Witness for the amended C8: a freshly built editor with one range, the
default `read_only = false`, and no write function aborts at the write
contract check. -/
theorem missing_write_function_render_abort_witness :
    (MemoryEditor.new.with_address_range "RAM" ⟨0, 16⟩).read_only = false ∧
      (MemoryEditor.new.with_address_range "RAM" ⟨0, 16⟩).write_function_set
        = false ∧
      0 < (MemoryEditor.new.with_address_range "RAM" ⟨0, 16⟩).address_ranges.length ∧
      draw_viewer_contents (MemoryEditor.new.with_address_range "RAM" ⟨0, 16⟩)
        0 1 = .error .missingWriteFunction := by
  refine ⟨by decide, by decide, by decide, ?_⟩
  exact missing_write_function_render_abort
    (MemoryEditor.new.with_address_range "RAM" ⟨0, 16⟩) 0 1
    (by decide) (by decide) (by decide)

/-- C9: width stabilization across consecutive window frames.  Frame N draws
with carried width `prev` at natural width `w1` and records its rendered
width; frame N+1, at a narrower natural width `w2 < w1` and no reset, still
renders at least `w1` wide: the bound applied at the start of a render is
`max(natural, previous recorded width)` (`shrink_window_ui`) and the
rendered width is recorded at the end of every render. -/
theorem width_stabilization (prev w1 w2 : ℚ) (h : w2 < w1) :
    w1 ≤ (window_frame (window_frame prev w1).2 w2).1 := by
  unfold window_frame
  exact le_trans (le_max_left w1 prev) (le_max_right w2 (max w1 prev))

/-- Witness for C9: frame N at natural width 2 (carry 0), frame N+1 at
natural width 1 still renders at width at least 2. -/
theorem width_stabilization_witness :
    (1 : ℚ) < 2 ∧ (2 : ℚ) ≤ (window_frame (window_frame 0 2).2 1).1 :=
  ⟨by norm_num, width_stabilization 0 2 1 (by norm_num)⟩

/-- C10: `with_options` installs the supplied bundle without validation, so
`column_count = 0` is accepted; a subsequent render call then aborts with
the division by zero in `len().div_ceil(column_count)` (after the entry
checks and the selection lookup), and no such abort occurs for any column
count in the documented `[1,64]` band — the row-count computation is total
only under `column_count >= 1`. -/
theorem with_options_zero_columns_divides_by_zero (ed : MemoryEditor)
    (opts : MemoryEditorOptions) (lo hi : Nat)
    (hlen : 0 < (ed.with_options opts).address_ranges.length)
    (hw : (ed.with_options opts).write_function_set ∨
      (ed.with_options opts).read_only)
    (hsel : (bt_get ed.address_ranges opts.selected_address_range).isSome
      = true) :
    (ed.with_options opts).options = opts ∧
      (opts.column_count = 0 →
        draw_viewer_contents (ed.with_options opts) lo hi
          = .error .divisionByZero) ∧
      (1 ≤ opts.column_count → opts.column_count ≤ 64 →
        draw_viewer_contents (ed.with_options opts) lo hi
          ≠ .error .divisionByZero) := by
  obtain ⟨rg, hrg⟩ := Option.isSome_iff_exists.mp hsel
  have hlen2 : ed.address_ranges.length > 0 := hlen
  have hw2 : (ed.write_function_set ∨ ed.read_only : Prop) := hw
  refine ⟨rfl, ?_, ?_⟩
  · intro h0
    have hzero : options_area_column_count opts.column_count = 0 := by
      rw [options_area_column_count, h0]
    simp only [draw_viewer_contents, MemoryEditor.with_options, hrg]
    rw [if_pos hlen2, if_pos hw2, if_pos hzero]
  · intro hge hle
    have hmod : options_area_column_count opts.column_count
        = opts.column_count := by
      rw [options_area_column_count]
      omega
    simp only [draw_viewer_contents, MemoryEditor.with_options, hrg]
    rw [if_pos hlen2, if_pos hw2,
      if_neg (by omega : ¬(options_area_column_count opts.column_count = 0))]
    simp

/-- Witness for C10: installing `zero_column_options` (column count 0,
selection `"RAM"`) on a read-only editor with the `"RAM"` range makes the
render call abort with the division by zero. -/
theorem with_options_zero_columns_witness :
    0 < (((MemoryEditor.new.with_address_range "RAM" ⟨0, 16⟩).with_read_only true).with_options zero_column_options).address_ranges.length ∧
      ((((MemoryEditor.new.with_address_range "RAM" ⟨0, 16⟩).with_read_only true).with_options zero_column_options).write_function_set ∨
        (((MemoryEditor.new.with_address_range "RAM" ⟨0, 16⟩).with_read_only true).with_options zero_column_options).read_only) ∧
      (bt_get ((MemoryEditor.new.with_address_range "RAM" ⟨0, 16⟩).with_read_only true).address_ranges
        zero_column_options.selected_address_range).isSome = true ∧
      draw_viewer_contents (((MemoryEditor.new.with_address_range "RAM" ⟨0, 16⟩).with_read_only true).with_options zero_column_options) 0 1
        = .error .divisionByZero := by
  refine ⟨by decide, by decide, by decide, ?_⟩
  exact (with_options_zero_columns_divides_by_zero
    ((MemoryEditor.new.with_address_range "RAM" ⟨0, 16⟩).with_read_only true)
    zero_column_options 0 1 (by decide) (by decide) (by decide)).2.1 rfl

end MemoryEditorSpec
